import Mathlib

/-!
Verification of the snapshot-and-undo subsystem of the `lyra` repository
(`src/lyra/history.py`) and of its sandboxed runtime guard
(`src/lyra/safe_profile.py`), against the natural-language specification.

The repository tree is modelled as an association list from relative
paths to files; a file carries its byte content together with a
readability flag (an unreadable file is one whose reads raise `OSError`
in the Python source).  The cryptographic digest `_sha256` is modelled
as an explicit function parameter `hash : Bytes → Hash`; nothing in the
source depends on the digest beyond it being a function of the bytes.
-/

namespace Lyra

/-- Byte strings, as lists of byte values. -/
abbrev Bytes := List Nat

/-- Digest values, kept abstract as a sequence of values;
the concrete choice never matters to the source logic. -/
abbrev Hash := List Nat

/-- One file on disk: its content and whether reads of it succeed
(`readable = false` models a file whose `open`/`read` raises `OSError`). -/
structure File where
  content : Bytes
  readable : Bool
deriving DecidableEq, Repr

/-- A directory tree, as an association list from relative path to file.
The list order models the traversal order of `Path.rglob`. -/
abbrev FS := List (String × File)

/-- Association-list lookup on string keys (first match wins, as in a
Python dict freshly built without key collisions). -/
def alookup {α : Type} : List (String × α) → String → Option α
  | [], _ => none
  | (k, v) :: rest, p => if k = p then some v else alookup rest p

/-- `Path.exists()` on the modelled tree. -/
def FS.exists (fs : FS) (p : String) : Bool :=
  (alookup fs p).isSome

/-- `Path.read_bytes()`: `some` content when the file exists and is
readable, `none` when the read raises `OSError` (absent or unreadable). -/
def FS.readBytes (fs : FS) (p : String) : Option Bytes :=
  match alookup fs p with
  | some f => if f.readable then some f.content else none
  | none => none

/-- `Path.unlink()`: remove the path from the tree. -/
def FS.unlink : FS → String → FS
  | [], _ => []
  | e :: rest, p => if e.1 = p then FS.unlink rest p else e :: FS.unlink rest p

/-- `Path.write_bytes(b)`: overwrite the file if present, else create it.
A freshly written file is readable. -/
def FS.write : FS → String → Bytes → FS
  | [], p, b => [(p, ⟨b, true⟩)]
  | (k, v) :: rest, p, b =>
    if k = p then (k, ⟨b, true⟩) :: rest else (k, v) :: FS.write rest p b

/-! ### Path helpers: `Path.suffix` and `str.lower` -/

/-- Index of the last occurrence of a character in a list, if any. -/
def rfindIdx (c : Char) : List Char → Option Nat
  | [] => none
  | x :: xs =>
    match rfindIdx c xs with
    | some i => some (i + 1)
    | none => if x = c then some 0 else none

/-- The final path component (text after the last slash). -/
def lastComponent (rel : String) : List Char :=
  match rfindIdx '/' rel.toList with
  | some i => rel.toList.drop (i + 1)
  | none => rel.toList

/-- `pathlib.PurePath.suffix` of a relative path: the extension of the
final component, including the dot; empty when the final component has
no dot, starts with its only dot, or ends with the dot. -/
def pathSuffix (rel : String) : String :=
  let name := lastComponent rel
  match rfindIdx '.' name with
  | some i =>
    if 0 < i ∧ i < name.length - 1 then String.mk (name.drop i) else ""
  | none => ""

/-- `str.lower()`, character-wise. -/
def lowerStr (s : String) : String :=
  String.mk (s.toList.map Char.toLower)

/-- `p.suffix.lower()` for a repository-relative path. -/
def suffixLower (rel : String) : String :=
  lowerStr (pathSuffix rel)

/-! ### Manifests (`ManifestEntry`, `_iter_files`, `build_manifest`) -/

/-- `ManifestEntry` from `history.py`: identity of one file. -/
structure ManifestEntry where
  rel_path : String
  size : Nat
  sha256 : Hash
deriving DecidableEq, Repr

/-- A manifest: relative path keyed association list of entries
(`dict[str, ManifestEntry]` in the source; dict keys are unique). -/
abbrev Manifest := List (String × ManifestEntry)

/-- The junk/large directory names skipped by `_iter_files`. -/
def EXCLUDED_DIRS : List String :=
  [".git", ".venv", "venv", "build", "dist", ".lyra", "__pycache__"]

/-- The first path segment of a relative path (`rel.parts[0]`). -/
def firstPart (rel : String) : String :=
  String.mk (rel.toList.takeWhile (fun c => decide (c ≠ '/')))

/-- `_iter_files`: every regular file under the root whose first path
segment is not an excluded directory name. -/
def _iter_files (fs : FS) : FS :=
  fs.filter (fun e => decide (firstPart e.1 ∉ EXCLUDED_DIRS))

/-- `build_manifest`: map every surviving, readable file to its manifest
entry; a file whose `stat`/read raises `OSError` is silently omitted. -/
def build_manifest (hash : Bytes → Hash) (fs : FS) : Manifest :=
  (_iter_files fs).filterMap
    (fun e =>
      if e.2.readable then
        some (e.1, ManifestEntry.mk e.1 e.2.content.length (hash e.2.content))
      else none)

/-- A manifest viewed as its set of (path, hash) pairs. -/
def manifestPairs (m : Manifest) : List (String × Hash) :=
  m.map (fun e => (e.1, e.2.sha256))

/-! ### Backup store (`_looks_binary`, backup loop of `create_history_entry`) -/

/-- `DEFAULT_BACKUP_EXTENSIONS` from `history.py`. -/
def DEFAULT_BACKUP_EXTENSIONS : List String :=
  [".py", ".pyw", ".sh", ".md", ".txt", ".toml", ".yaml", ".yml", ".json"]

/-- `_looks_binary`: sniff the leading 4096 bytes for a null byte; a file
whose read raises `OSError` is treated as binary. -/
def _looks_binary (fs : FS) (p : String) : Bool :=
  match FS.readBytes fs p with
  | none => true
  | some data => (data.take 4096).contains 0

/-- The backup loop of `create_history_entry` (lines 130-148 of
`history.py`): walk the BEFORE manifest in order; files whose lowered
suffix is outside the allow-list are passed over silently; allow-listed
files that are oversized, binary-sniffed, or unreadable at copy time go
to `skipped`; the rest are copied byte-for-byte into the backup tree
(keyed by the same relative path) and recorded in `backed_up`.
Returns (backup tree, backed_up, skipped). -/
def backupLoop (exts : List String) (max_backup_bytes : Nat) (fs : FS) :
    Manifest → FS → List String → List String → FS × List String × List String
  | [], bk, backed, skipped => (bk, backed, skipped)
  | (rel, entry) :: rest, bk, backed, skipped =>
    if suffixLower rel ∉ exts then
      backupLoop exts max_backup_bytes fs rest bk backed skipped
    else if entry.size > max_backup_bytes then
      backupLoop exts max_backup_bytes fs rest bk backed (skipped ++ [rel])
    else if _looks_binary fs rel then
      backupLoop exts max_backup_bytes fs rest bk backed (skipped ++ [rel])
    else
      match FS.readBytes fs rel with
      | some b =>
        backupLoop exts max_backup_bytes fs rest (FS.write bk rel b) (backed ++ [rel]) skipped
      | none =>
        backupLoop exts max_backup_bytes fs rest bk backed (skipped ++ [rel])

/-- The in-memory result of `create_history_entry`: the run id (see
`run_id` below), BEFORE manifest, backup tree, and the two bookkeeping
lists persisted into `meta.json`. -/
structure HistoryData where
  runId : List Nat
  before_manifest : Manifest
  backup : FS
  backed_up : List String
  skipped : List String
deriving DecidableEq, Repr

/-! ### Run identifiers (`datetime.utcnow().strftime("%Y%m%d-%H%M%S")`) -/

/-- A wall-clock instant at second resolution, as read by
`datetime.utcnow()` at entry-creation time. -/
structure Time where
  year : Nat
  month : Nat
  day : Nat
  hour : Nat
  minute : Nat
  second : Nat
deriving DecidableEq, Repr

/-- Field bounds under which the `strftime` padding is faithful
(calendar-valid instants satisfy these easily). -/
def Time.Valid (t : Time) : Prop :=
  t.year < 10000 ∧ t.month < 100 ∧ t.day < 100 ∧
    t.hour < 100 ∧ t.minute < 100 ∧ t.second < 100

instance (t : Time) : Decidable t.Valid := by
  unfold Time.Valid; infer_instance

/-- Chronological order on instants (lexicographic on the fields,
which is the calendar order). -/
def Time.Before (t u : Time) : Prop :=
  t.year < u.year ∨ (t.year = u.year ∧
    (t.month < u.month ∨ (t.month = u.month ∧
      (t.day < u.day ∨ (t.day = u.day ∧
        (t.hour < u.hour ∨ (t.hour = u.hour ∧
          (t.minute < u.minute ∨ (t.minute = u.minute ∧
            t.second < u.second)))))))))

instance (t u : Time) : Decidable (t.Before u) := by
  unfold Time.Before; infer_instance

/-- A two-digit zero-padded decimal field of `strftime`, as the character
codes it prints. -/
def two_digits (n : Nat) : List Nat :=
  [48 + n / 10 % 10, 48 + n % 10]

/-- The four-digit zero-padded year field of `strftime`. -/
def four_digits (n : Nat) : List Nat :=
  [48 + n / 1000 % 10, 48 + n / 100 % 10, 48 + n / 10 % 10, 48 + n % 10]

/-- The run identifier `strftime("%Y%m%d-%H%M%S")`, as the list of
character codes of the produced string (45 is the hyphen). -/
def run_id (t : Time) : List Nat :=
  four_digits t.year ++ two_digits t.month ++ two_digits t.day ++ [45] ++
    two_digits t.hour ++ two_digits t.minute ++ two_digits t.second

/-- `create_history_entry` (pure core): build and persist the BEFORE
manifest, then run the backup loop over it.  `backup_extensions or
DEFAULT_BACKUP_EXTENSIONS` maps `none` and the empty set to the default.
`now` is the clock reading that stamps the run id. -/
def create_history_entry (hash : Bytes → Hash) (now : Time)
    (backup_extensions : Option (List String)) (max_backup_bytes : Nat)
    (fs : FS) : HistoryData :=
  let exts :=
    match backup_extensions with
    | some s => if s.isEmpty then DEFAULT_BACKUP_EXTENSIONS else s
    | none => DEFAULT_BACKUP_EXTENSIONS
  let before := build_manifest hash fs
  let r := backupLoop exts max_backup_bytes fs before [] [] []
  HistoryData.mk (run_id now) before r.1 r.2.1 r.2.2

/-! ### Finalization (`finalize_history_entry`) -/

/-- The `ChangeSet` persisted as `changes.json`. -/
structure Changes where
  added : List String
  deleted : List String
  modified : List String
deriving DecidableEq, Repr

/-- Code-point-wise string comparison, the order Python `sorted` uses on
`str` values (lexicographic on the character sequences). -/
def strLeb : List Char → List Char → Bool
  | [], _ => true
  | _ :: _, [] => false
  | a :: as, b :: bs =>
    if a < b then true else if b < a then false else strLeb as bs

/-- Insertion into a sorted list of strings. -/
def insertSorted (x : String) : List String → List String
  | [] => [x]
  | y :: ys =>
    if strLeb x.data y.data then x :: y :: ys else y :: insertSorted x ys

/-- Python `sorted` on a list of strings (insertion sort). -/
def sortStrings : List String → List String
  | [] => []
  | x :: xs => insertSorted x (sortStrings xs)

/-- The key set of a manifest. -/
def manifestKeys (m : Manifest) : List String :=
  m.map (fun e => e.1)

/-- The recorded hash of a key in a manifest (`m[k].sha256`). -/
def hashAt (m : Manifest) (k : String) : Option Hash :=
  (alookup m k).map (fun e => e.sha256)

/-- The diff computation of `finalize_history_entry` (lines 180-199 of
`history.py`): `added = sorted(after_keys - before_keys)`,
`deleted = sorted(before_keys - after_keys)`, and `modified` collects, in
sorted key order over `before_keys & after_keys`, the keys whose recorded
hashes differ. -/
def finalize_history_entry (before after : Manifest) : Changes :=
  let beforeKeys := manifestKeys before
  let afterKeys := manifestKeys after
  let added := sortStrings ((afterKeys.filter (fun k => decide (k ∉ beforeKeys))).dedup)
  let deleted := sortStrings ((beforeKeys.filter (fun k => decide (k ∉ afterKeys))).dedup)
  let common := sortStrings ((beforeKeys.filter (fun k => decide (k ∈ afterKeys))).dedup)
  let modified := common.filter (fun k => decide (hashAt before k ≠ hashAt after k))
  Changes.mk added deleted modified

/-! ### Undo engine (`undo_history`) -/

/-- The summary shape the spec and the CLI callers (`cmd_undo_apply`,
`cmd_undo_last`) expect `undo_history` to return. -/
structure UndoSummary where
  restored : List String
  removed : List String
  skipped_no_backup : List String
deriving DecidableEq, Repr

/-- Outcome of an undo call that got past the missing-records check:
either the `RuntimeError` listing the diverged paths, or normal return
carrying the Python return value (`none` models Python `None`; the
source `undo_history` has no `return` statement). -/
inductive UndoResult where
  | diverged (paths : List String)
  | ok (summary : Option UndoSummary)
deriving DecidableEq, Repr

/-- One iteration of the divergence scan (lines 253-263 of `history.py`):
a path is divergent when it exists, its hash can be computed, the AFTER
manifest has a (truthy) hash recorded for it, and the two differ.  A path
absent from the AFTER manifest — every `deleted` path — is never flagged. -/
def isDivergent (hash : Bytes → Hash) (after : Manifest) (fs : FS)
    (rel : String) : Bool :=
  match alookup fs rel with
  | none => false
  | some f =>
    if f.readable then
      match alookup after rel with
      | some e => decide (hash f.content ≠ e.sha256)
      | none => false
    else false

/-- The divergence list accumulated over `changes.modified + changes.deleted`. -/
def divergentList (hash : Bytes → Hash) (changes : Changes) (after : Manifest)
    (fs : FS) : List String :=
  (changes.modified ++ changes.deleted).filter (isDivergent hash after fs)

/-- The added-file removal loop (lines 273-279): unlink each existing
`added` path (unlink failures are swallowed; the model's unlink succeeds). -/
def removeAdded : FS → List String → FS
  | fs, [] => fs
  | fs, rel :: rest =>
    removeAdded (if FS.exists fs rel then FS.unlink fs rel else fs) rest

/-- The restore loop (lines 282-289): for each `modified`/`deleted` path,
if a backup copy exists overwrite the live file with its bytes, else
leave the live tree untouched. -/
def restoreFiles (backup : FS) : FS → List String → FS
  | fs, [] => fs
  | fs, rel :: rest =>
    restoreFiles backup
      (match alookup backup rel with
       | some f => FS.write fs rel f.content
       | none => fs) rest

/-- `undo_history` (lines 248-289), given the loaded `changes.json` and
AFTER manifest and the backup tree: scan for divergence; without `force`
a non-empty divergence list raises before any mutation; otherwise remove
added files, restore modified/deleted files from backup, and return
Python `None` (the function has no `return` statement). -/
def undo_history (hash : Bytes → Hash) (changes : Changes) (after : Manifest)
    (backup : FS) (fs : FS) (force : Bool) : FS × UndoResult :=
  let divergent := divergentList hash changes after fs
  if divergent ≠ [] ∧ force = false then
    (fs, UndoResult.diverged divergent)
  else
    let fs1 := removeAdded fs changes.added
    let fs2 := restoreFiles backup fs1 (changes.modified ++ changes.deleted)
    (fs2, UndoResult.ok none)

/-- The counts `cmd_undo_apply`/`cmd_undo_last` print from the value
returned by `undo_history`: `len(summary["restored"])` and friends.
Subscripting requires an actual summary mapping; `none` models the
`TypeError` raised when the returned value is Python `None`. -/
def cmd_undo_counts : UndoResult → Option (Nat × Nat × Nat)
  | UndoResult.ok (some s) =>
    some (s.restored.length, s.removed.length, s.skipped_no_backup.length)
  | _ => none

/-! ### Runtime guard (`SAFE_PROFILE_SITECUSTOMIZE` in `safe_profile.py`) -/

/-- Mutable state of the injected guard: the shared step counter
(`_counter["steps"]`) and the one-shot warning flag (`_warned_save`). -/
structure GuardState where
  steps : Nat
  warned : Bool
deriving DecidableEq, Repr

/-- A guarded training loop attempting `n` optimizer-step invocations
under the patched `Optimizer.step`.  Each entered invocation first runs
`original_step` (completing the step), then increments the counter; when
the counter reaches `maxSteps` the guard warns once and raises
`SystemExit(0)`, ending the process.  Returns (final guard state, number
of diagnostic lines emitted, whether the process exited via the guard).
`maxSteps` is `int(os.environ["LYRA_MAX_STEPS"])` and may be any integer. -/
def runTraining (maxSteps : Int) : Nat → GuardState → GuardState × Nat × Bool
  | 0, st => (st, 0, false)
  | Nat.succ n, st =>
    let st1 : GuardState := GuardState.mk (st.steps + 1) st.warned
    if (st1.steps : Int) ≥ maxSteps then
      (GuardState.mk st1.steps true, (if st.warned then 0 else 1), true)
    else
      runTraining maxSteps n st1

/-! ## Helper lemmas -/

theorem alookup_unlink (fs : FS) (rel q : String) :
    alookup (FS.unlink fs rel) q = if q = rel then none else alookup fs q := by
  induction fs with
  | nil => by_cases hq : q = rel <;> simp [FS.unlink, alookup, hq]
  | cons e rest ih =>
    by_cases hk : e.1 = rel
    · by_cases hq : q = rel
      · subst hq; simp [FS.unlink, hk, ih]
      · have hne : ¬ rel = q := fun h => hq h.symm
        simp [FS.unlink, hk, ih, hq, alookup, hne]
    · by_cases hq2 : e.1 = q
      · have : ¬ q = rel := fun h => hk (by rw [hq2, h])
        simp [FS.unlink, hk, alookup, hq2, this]
      · simp [FS.unlink, hk, alookup, hq2, ih]

theorem alookup_write (fs : FS) (p q : String) (b : Bytes) :
    alookup (FS.write fs p b) q =
      if q = p then some (File.mk b true) else alookup fs q := by
  induction fs with
  | nil =>
    by_cases hq : q = p
    · subst hq; simp [FS.write, alookup]
    · have hpq : ¬ p = q := fun h => hq h.symm
      simp [FS.write, alookup, hq, hpq]
  | cons e rest ih =>
    by_cases hk : e.1 = p
    · by_cases hq : q = p
      · have heq : e.1 = q := by rw [hk, hq]
        simp [FS.write, hk, alookup, heq, hq]
      · have hne : ¬ p = q := fun h => hq h.symm
        simp [FS.write, hk, alookup, hne, hq]
    · by_cases hq2 : e.1 = q
      · have hqp : ¬ q = p := fun h => hk (by rw [hq2, h])
        simp [FS.write, hk, alookup, hq2, hqp]
      · simp [FS.write, hk, alookup, hq2, ih]

theorem removeAdded_lookup (added : List String) (fs : FS) (q : String) :
    alookup (removeAdded fs added) q =
      if q ∈ added then none else alookup fs q := by
  induction added generalizing fs with
  | nil => simp [removeAdded]
  | cons rel rest ih =>
    have hstep :
        alookup (if FS.exists fs rel then FS.unlink fs rel else fs) q =
          if q = rel then none else alookup fs q := by
      by_cases he : FS.exists fs rel
      · rw [if_pos he, alookup_unlink]
      · rw [if_neg he]
        by_cases hq : q = rel
        · subst hq
          rw [if_pos rfl]
          cases hlk : alookup fs q with
          | none => rfl
          | some f => exact absurd (by simp [FS.exists, hlk]) he
        · rw [if_neg hq]
    rw [removeAdded, ih, hstep]
    by_cases h1 : q ∈ rest <;> by_cases h2 : q = rel <;> simp [h1, h2]

theorem restoreFiles_frame (backup : FS) (rels : List String) (fs : FS)
    (q : String) (h : q ∉ rels) :
    alookup (restoreFiles backup fs rels) q = alookup fs q := by
  induction rels generalizing fs with
  | nil => simp [restoreFiles]
  | cons rel rest ih =>
    have hq : ¬ q = rel := fun hh => h (by simp [hh])
    have hrest : q ∉ rest := fun hh => h (by simp [hh])
    cases hb : alookup backup rel with
    | none => simpa [restoreFiles, hb] using ih _ hrest
    | some f =>
      rw [restoreFiles, hb]
      rw [ih _ hrest, alookup_write, if_neg hq]

/-- The condition under which the backup loop copies a manifest entry:
allow-listed lowered suffix, size within the ceiling, and the binary
sniff passes (which entails the file is readable). -/
def backedPred (exts : List String) (max_backup_bytes : Nat) (fs : FS)
    (e : String × ManifestEntry) : Bool :=
  decide (suffixLower e.1 ∈ exts) && decide (e.2.size ≤ max_backup_bytes) &&
    !(_looks_binary fs e.1)

/-- The condition under which the backup loop records a manifest entry as
skipped: allow-listed suffix but oversized or binary-sniffed (an
unreadable file sniffs as binary). -/
def skippedPred (exts : List String) (max_backup_bytes : Nat) (fs : FS)
    (e : String × ManifestEntry) : Bool :=
  decide (suffixLower e.1 ∈ exts) &&
    (decide (max_backup_bytes < e.2.size) || _looks_binary fs e.1)

theorem looks_binary_false_readBytes {fs : FS} {p : String}
    (h : _looks_binary fs p = false) : (FS.readBytes fs p).isSome := by
  unfold _looks_binary at h
  cases hr : FS.readBytes fs p with
  | none => rw [hr] at h; simp at h
  | some d => simp

theorem backupLoop_backed (exts : List String) (maxB : Nat) (fs : FS)
    (m : Manifest) (bk : FS) (backed skipped : List String) :
    (backupLoop exts maxB fs m bk backed skipped).2.1 =
      backed ++ (m.filter (backedPred exts maxB fs)).map (fun e => e.1) := by
  induction m generalizing bk backed skipped with
  | nil => simp [backupLoop]
  | cons e rest ih =>
    obtain ⟨rel, entry⟩ := e
    by_cases h1 : suffixLower rel ∈ exts
    · by_cases h2 : entry.size > maxB
      · have hp : backedPred exts maxB fs (rel, entry) = false := by
          simp [backedPred]; omega
        simp [backupLoop, h1, h2, ih, List.filter_cons, hp]
      · by_cases h3 : _looks_binary fs rel
        · have hp : backedPred exts maxB fs (rel, entry) = false := by
            simp [backedPred, h3]
          simp [backupLoop, h1, h2, h3, ih, List.filter_cons, hp]
        · have hp : backedPred exts maxB fs (rel, entry) = true := by
            simp [backedPred, h1, h3]; omega
          have hr := looks_binary_false_readBytes (eq_false_of_ne_true h3)
          cases hrb : FS.readBytes fs rel with
          | none => rw [hrb] at hr; simp at hr
          | some b =>
            simp [backupLoop, h1, h2, h3, hrb, ih, List.filter_cons, hp]
    · have hp : backedPred exts maxB fs (rel, entry) = false := by
        simp [backedPred, h1]
      simp [backupLoop, h1, ih, List.filter_cons, hp]

theorem backupLoop_skipped (exts : List String) (maxB : Nat) (fs : FS)
    (m : Manifest) (bk : FS) (backed skipped : List String) :
    (backupLoop exts maxB fs m bk backed skipped).2.2 =
      skipped ++ (m.filter (skippedPred exts maxB fs)).map (fun e => e.1) := by
  induction m generalizing bk backed skipped with
  | nil => simp [backupLoop]
  | cons e rest ih =>
    obtain ⟨rel, entry⟩ := e
    by_cases h1 : suffixLower rel ∈ exts
    · by_cases h2 : entry.size > maxB
      · have hp : skippedPred exts maxB fs (rel, entry) = true := by
          simp [skippedPred, h1]; omega
        simp [backupLoop, h1, h2, ih, List.filter_cons, hp]
      · by_cases h3 : _looks_binary fs rel
        · have hp : skippedPred exts maxB fs (rel, entry) = true := by
            simp [skippedPred, h1, h3]
          simp [backupLoop, h1, h2, h3, ih, List.filter_cons, hp]
        · have hp : skippedPred exts maxB fs (rel, entry) = false := by
            simp [skippedPred, h3]; omega
          have hr := looks_binary_false_readBytes (eq_false_of_ne_true h3)
          cases hrb : FS.readBytes fs rel with
          | none => rw [hrb] at hr; simp at hr
          | some b =>
            simp [backupLoop, h1, h2, h3, hrb, ih, List.filter_cons, hp]
    · have hp : skippedPred exts maxB fs (rel, entry) = false := by
        simp [skippedPred, h1]
      simp [backupLoop, h1, ih, List.filter_cons, hp]

theorem backupLoop_bk_frame (exts : List String) (maxB : Nat) (fs : FS)
    (m : Manifest) (bk : FS) (backed skipped : List String) (q : String)
    (h : q ∉ m.map (fun e => e.1)) :
    alookup (backupLoop exts maxB fs m bk backed skipped).1 q = alookup bk q := by
  induction m generalizing bk backed skipped with
  | nil => simp [backupLoop]
  | cons e rest ih =>
    obtain ⟨rel, entry⟩ := e
    rw [List.map_cons] at h
    have hq : ¬ q = rel := fun hh => h (by rw [hh]; exact List.mem_cons_self _ _)
    have hrest : q ∉ rest.map (fun e => e.1) := fun hh => h (List.mem_cons_of_mem _ hh)
    by_cases h1 : suffixLower rel ∈ exts
    · by_cases h2 : entry.size > maxB
      · simp [backupLoop, h1, h2, ih _ _ _ hrest]
      · by_cases h3 : _looks_binary fs rel
        · simp [backupLoop, h1, h2, h3, ih _ _ _ hrest]
        · cases hrb : FS.readBytes fs rel with
          | none => simp [backupLoop, h1, h2, h3, hrb, ih _ _ _ hrest]
          | some b =>
            simp only [backupLoop,
              if_neg (by simp [h1] : ¬ suffixLower rel ∉ exts),
              if_neg h2, if_neg (by simp [h3] : ¬ _looks_binary fs rel = true),
              hrb]
            rw [ih _ _ _ hrest, alookup_write, if_neg hq]
    · simp [backupLoop, h1, ih _ _ _ hrest]

theorem backupLoop_bk_copied (exts : List String) (maxB : Nat) (fs : FS)
    (m : Manifest) (bk : FS) (backed skipped : List String)
    (hnd : (m.map (fun e => e.1)).Nodup) (rel : String) (entry : ManifestEntry)
    (hmem : (rel, entry) ∈ m) (hp : backedPred exts maxB fs (rel, entry) = true) :
    alookup (backupLoop exts maxB fs m bk backed skipped).1 rel =
      Option.map (fun b => File.mk b true) (FS.readBytes fs rel) := by
  induction m generalizing bk backed skipped with
  | nil => simp at hmem
  | cons e rest ih =>
    obtain ⟨k, ke⟩ := e
    rw [List.map_cons, List.nodup_cons] at hnd
    obtain ⟨hknot, hnd2⟩ := hnd
    rcases List.mem_cons.mp hmem with hhead | htail
    · injection hhead with hk hke
      subst hk; subst hke
      have hps := hp
      simp only [backedPred, Bool.and_eq_true, decide_eq_true_eq,
        Bool.not_eq_true'] at hps
      obtain ⟨⟨h1, h2le⟩, h3⟩ := hps
      have h2 : ¬ entry.size > maxB := by omega
      have hr := looks_binary_false_readBytes h3
      cases hrb : FS.readBytes fs rel with
      | none => rw [hrb] at hr; simp at hr
      | some b =>
        simp only [backupLoop,
          if_neg (by simp [h1] : ¬ suffixLower rel ∉ exts), if_neg h2,
          if_neg (by simp [h3] : ¬ _looks_binary fs rel = true), hrb]
        rw [backupLoop_bk_frame _ _ _ _ _ _ _ _ hknot, alookup_write,
          if_pos rfl]
        simp
    · have hkne : ¬ k = rel := by
        intro hk; subst hk
        exact hknot (List.mem_map.mpr ⟨(k, entry), htail, rfl⟩)
      by_cases h1 : suffixLower k ∈ exts
      · by_cases h2 : ke.size > maxB
        · simp only [backupLoop, if_neg (by simp [h1] : ¬ suffixLower k ∉ exts),
            if_pos h2]
          exact ih _ _ _ hnd2 htail
        · by_cases h3 : _looks_binary fs k
          · simp only [backupLoop, if_neg (by simp [h1] : ¬ suffixLower k ∉ exts),
              if_neg h2, if_pos h3]
            exact ih _ _ _ hnd2 htail
          · cases hrb : FS.readBytes fs k with
            | none =>
              simp only [backupLoop, if_neg (by simp [h1] : ¬ suffixLower k ∉ exts),
                if_neg h2, if_neg (by simp [h3] : ¬ _looks_binary fs k = true), hrb]
              exact ih _ _ _ hnd2 htail
            | some b =>
              simp only [backupLoop, if_neg (by simp [h1] : ¬ suffixLower k ∉ exts),
                if_neg h2, if_neg (by simp [h3] : ¬ _looks_binary fs k = true), hrb]
              exact ih _ _ _ hnd2 htail
      · simp only [backupLoop, if_pos (by simp [h1] : suffixLower k ∉ exts)]
        exact ih _ _ _ hnd2 htail

theorem mem_insertSorted (a x : String) (l : List String) :
    a ∈ insertSorted x l ↔ a = x ∨ a ∈ l := by
  induction l with
  | nil => simp [insertSorted]
  | cons y ys ih =>
    by_cases h : strLeb x.data y.data
    · simp [insertSorted, h]
    · simp [insertSorted, h, ih]
      tauto

theorem mem_sortStrings (a : String) (l : List String) :
    a ∈ sortStrings l ↔ a ∈ l := by
  induction l with
  | nil => simp [sortStrings]
  | cons x xs ih => simp [sortStrings, mem_insertSorted, ih]

theorem finalize_mem_added (before after : Manifest) (k : String) :
    k ∈ (finalize_history_entry before after).added ↔
      k ∈ manifestKeys after ∧ k ∉ manifestKeys before := by
  simp [finalize_history_entry, mem_sortStrings, List.mem_dedup, List.mem_filter]

theorem finalize_mem_deleted (before after : Manifest) (k : String) :
    k ∈ (finalize_history_entry before after).deleted ↔
      k ∈ manifestKeys before ∧ k ∉ manifestKeys after := by
  simp [finalize_history_entry, mem_sortStrings, List.mem_dedup, List.mem_filter]

theorem finalize_mem_modified (before after : Manifest) (k : String) :
    k ∈ (finalize_history_entry before after).modified ↔
      k ∈ manifestKeys before ∧ k ∈ manifestKeys after ∧
        hashAt before k ≠ hashAt after k := by
  simp [finalize_history_entry, mem_sortStrings, List.mem_dedup, List.mem_filter]
  tauto

theorem runTraining_inv (maxSteps : Int) (n : Nat) :
    ∀ s : Nat, (s : Int) < maxSteps →
      ((((runTraining maxSteps n (GuardState.mk s false)).1.steps : Int) ≤ maxSteps) ∧
       ((runTraining maxSteps n (GuardState.mk s false)).2.2 = true →
          (runTraining maxSteps n (GuardState.mk s false)).2.1 = 1 ∧
          (((runTraining maxSteps n (GuardState.mk s false)).1.steps : Int) = maxSteps)) ∧
       ((runTraining maxSteps n (GuardState.mk s false)).2.2 = false →
          (runTraining maxSteps n (GuardState.mk s false)).2.1 = 0 ∧
          (((runTraining maxSteps n (GuardState.mk s false)).1.steps : Int) < maxSteps) ∧
          (runTraining maxSteps n (GuardState.mk s false)).1.steps = s + n)) := by
  induction n with
  | zero =>
    intro s hs
    refine ⟨by simpa [runTraining] using le_of_lt hs, ?_, ?_⟩
    · intro h; simp [runTraining] at h
    · intro _; simpa [runTraining] using hs
  | succ n ih =>
    intro s hs
    simp only [runTraining, Nat.cast_add, Nat.cast_one, ge_iff_le]
    by_cases htrip : maxSteps ≤ (s : Int) + 1
    · rw [if_pos htrip]
      refine ⟨?_, fun _ => ⟨rfl, ?_⟩, fun hfalse => by simp at hfalse⟩
      · show ((s + 1 : Nat) : Int) ≤ maxSteps
        push_cast; omega
      · show ((s + 1 : Nat) : Int) = maxSteps
        push_cast; omega
    · rw [if_neg htrip]
      have hlt : ((s + 1 : Nat) : Int) < maxSteps := by push_cast; omega
      obtain ⟨ha, hb, hc⟩ := ih (s + 1) hlt
      refine ⟨ha, hb, fun hfalse => ?_⟩
      obtain ⟨h1, h2, h3⟩ := hc hfalse
      exact ⟨h1, h2, by omega⟩

/-! ### Run-identifier lemmas -/

theorem lex_append_left {xs ys as bs : List Nat}
    (hlen : xs.length = ys.length) (h : List.Lex (· < ·) xs ys) :
    List.Lex (· < ·) (xs ++ as) (ys ++ bs) := by
  induction h with
  | nil => simp at hlen
  | cons h ih =>
    exact List.Lex.cons (ih (by simpa using hlen))
  | rel h => exact List.Lex.rel h

theorem lex_append_right (xs : List Nat) {as bs : List Nat}
    (h : List.Lex (· < ·) as bs) :
    List.Lex (· < ·) (xs ++ as) (xs ++ bs) := by
  induction xs with
  | nil => simpa using h
  | cons x l ih => exact List.Lex.cons ih

theorem lex_irrefl_nat (l : List Nat) : ¬ List.Lex (· < ·) l l := by
  induction l with
  | nil => intro h; cases h
  | cons x xs ih =>
    intro h
    cases h with
    | cons h => exact ih h
    | rel h => exact lt_irrefl _ h

theorem two_digits_lt {m n : Nat} (h : m < n) (hn : n < 100) :
    List.Lex (· < ·) (two_digits m) (two_digits n) := by
  rcases Nat.lt_trichotomy (m / 10) (n / 10) with h1 | h1 | h1
  · exact List.Lex.rel (by omega)
  · have ha : 48 + m / 10 % 10 = 48 + n / 10 % 10 := by omega
    rw [two_digits, two_digits, ha]
    exact List.Lex.cons (List.Lex.rel (by omega))
  · omega

theorem four_digits_lt {m n : Nat} (h : m < n) (hn : n < 10000) :
    List.Lex (· < ·) (four_digits m) (four_digits n) := by
  rcases Nat.lt_trichotomy (m / 1000) (n / 1000) with h1 | h1 | h1
  · exact List.Lex.rel (by omega)
  · have ha : 48 + m / 1000 % 10 = 48 + n / 1000 % 10 := by omega
    rcases Nat.lt_trichotomy (m / 100) (n / 100) with h2 | h2 | h2
    · rw [four_digits, four_digits, ha]
      exact List.Lex.cons (List.Lex.rel (by omega))
    · have hb : 48 + m / 100 % 10 = 48 + n / 100 % 10 := by omega
      rcases Nat.lt_trichotomy (m / 10) (n / 10) with h3 | h3 | h3
      · rw [four_digits, four_digits, ha, hb]
        exact List.Lex.cons (List.Lex.cons (List.Lex.rel (by omega)))
      · have hc : 48 + m / 10 % 10 = 48 + n / 10 % 10 := by omega
        rw [four_digits, four_digits, ha, hb, hc]
        exact List.Lex.cons (List.Lex.cons (List.Lex.cons (List.Lex.rel (by omega))))
      · omega
    · omega
  · omega

theorem run_id_lt (t u : Time) (ht : t.Valid) (hu : u.Valid)
    (h : t.Before u) : List.Lex (· < ·) (run_id t) (run_id u) := by
  obtain ⟨hty, htmo, htd, hth, htmi, hts⟩ := ht
  obtain ⟨huy, humo, hud, huh, humi, hus⟩ := hu
  rcases h with hy | ⟨hy, hmo | ⟨hmo, hd | ⟨hd, hh | ⟨hh, hmi | ⟨hmi, hs⟩⟩⟩⟩⟩
  · simp only [run_id, List.append_assoc]
    exact lex_append_left (by simp [four_digits]) (four_digits_lt hy huy)
  · simp only [run_id, List.append_assoc]
    rw [hy]
    exact lex_append_right _
      (lex_append_left (by simp [two_digits]) (two_digits_lt hmo humo))
  · simp only [run_id, List.append_assoc]
    rw [hy, hmo]
    exact lex_append_right _ (lex_append_right _
      (lex_append_left (by simp [two_digits]) (two_digits_lt hd hud)))
  · simp only [run_id, List.append_assoc]
    rw [hy, hmo, hd]
    exact lex_append_right _ (lex_append_right _ (lex_append_right _
      (lex_append_right _
        (lex_append_left (by simp [two_digits]) (two_digits_lt hh huh)))))
  · simp only [run_id, List.append_assoc]
    rw [hy, hmo, hd, hh]
    exact lex_append_right _ (lex_append_right _ (lex_append_right _
      (lex_append_right _ (lex_append_right _
        (lex_append_left (by simp [two_digits]) (two_digits_lt hmi humi))))))
  · simp only [run_id, List.append_assoc]
    rw [hy, hmo, hd, hh, hmi]
    exact lex_append_right _ (lex_append_right _ (lex_append_right _
      (lex_append_right _ (lex_append_right _ (lex_append_right _
        (two_digits_lt hs hus))))))

/-! ## Claim theorems -/

/-- Claim C1: the spec and the CLI callers expect
`undo(repo, run_id, force)` to return a summary mapping with keys
`restored`, `removed` and `skipped_no_backup`, but `undo_history` has no
`return` statement and yields Python `None` on every invocation that
proceeds past the divergence check.  Evaluated here on a concrete
successful undo (one modified file restored from backup, one added file
removed): the returned value carries no summary, so the caller model
`cmd_undo_counts` finds nothing to subscript. -/
theorem undo_history_returns_no_summary :
    undo_history (fun b => b) (Changes.mk ["new.py"] [] ["train.py"])
      [("train.py", ManifestEntry.mk "train.py" 4 [97, 61, 50, 10])]
      [("train.py", File.mk [97, 61, 49, 10] true)]
      [("train.py", File.mk [97, 61, 50, 10] true), ("new.py", File.mk [1] true),
        ("utils.py", File.mk [9] true)] false
      = ([("train.py", File.mk [97, 61, 49, 10] true),
          ("utils.py", File.mk [9] true)], UndoResult.ok none) ∧
    cmd_undo_counts
      (undo_history (fun b => b) (Changes.mk ["new.py"] [] ["train.py"])
        [("train.py", ManifestEntry.mk "train.py" 4 [97, 61, 50, 10])]
        [("train.py", File.mk [97, 61, 49, 10] true)]
        [("train.py", File.mk [97, 61, 50, 10] true), ("new.py", File.mk [1] true),
          ("utils.py", File.mk [9] true)] false).2 = none := by
  decide

/-- Claim C2: with `force = false` and a non-empty divergence list,
`undo_history` raises a `RuntimeError` naming exactly the paths the
divergence scan found (every scanned path that diverged), and the
repository tree is returned untouched — the raise happens before the
removal and restore loops run. -/
theorem undo_divergence_blocks_all_or_nothing (hash : Bytes → Hash)
    (changes : Changes) (after : Manifest) (backup fs : FS)
    (hdiv : divergentList hash changes after fs ≠ []) :
    undo_history hash changes after backup fs false =
      (fs, UndoResult.diverged (divergentList hash changes after fs)) ∧
    (∀ rel, rel ∈ divergentList hash changes after fs ↔
      (rel ∈ changes.modified ++ changes.deleted ∧
        isDivergent hash after fs rel = true)) := by
  constructor
  · simp only [undo_history]
    rw [if_pos ⟨hdiv, trivial⟩]
  · intro rel
    simp [divergentList, List.mem_filter]
    tauto

/-- Witness for C2 at a concrete diverged repository. -/
theorem undo_divergence_blocks_all_or_nothing_witness :
    divergentList (fun b => b) (Changes.mk [] [] ["m.txt"])
      [("m.txt", ManifestEntry.mk "m.txt" 1 [1])]
      [("m.txt", File.mk [2] true)] ≠ [] ∧
    (undo_history (fun b => b) (Changes.mk [] [] ["m.txt"])
      [("m.txt", ManifestEntry.mk "m.txt" 1 [1])] []
      [("m.txt", File.mk [2] true)] false =
      ([("m.txt", File.mk [2] true)],
        UndoResult.diverged (divergentList (fun b => b)
          (Changes.mk [] [] ["m.txt"])
          [("m.txt", ManifestEntry.mk "m.txt" 1 [1])]
          [("m.txt", File.mk [2] true)])) ∧
    (∀ rel, rel ∈ divergentList (fun b => b) (Changes.mk [] [] ["m.txt"])
        [("m.txt", ManifestEntry.mk "m.txt" 1 [1])]
        [("m.txt", File.mk [2] true)] ↔
      (rel ∈ (Changes.mk [] [] ["m.txt"]).modified ++
          (Changes.mk [] [] ["m.txt"]).deleted ∧
        isDivergent (fun b => b)
          [("m.txt", ManifestEntry.mk "m.txt" 1 [1])]
          [("m.txt", File.mk [2] true)] rel = true))) :=
  ⟨by decide,
    undo_divergence_blocks_all_or_nothing (fun b => b)
      (Changes.mk [] [] ["m.txt"])
      [("m.txt", ManifestEntry.mk "m.txt" 1 [1])] []
      [("m.txt", File.mk [2] true)] (by decide)⟩

/-- Counterexample to C3 as stated: `d.txt` is in the ChangeSet's
`deleted` set and exists on disk at undo time (the AFTER manifest records
it as absent), yet undo without force does not classify it as divergent
and proceeds: the call returns normally instead of aborting, because the
divergence scan only flags paths that have an AFTER-manifest hash. -/
theorem undo_deleted_path_not_flagged_cex :
    ("d.txt" ∈ (Changes.mk [] ["d.txt"] []).deleted) ∧
    FS.exists [("d.txt", File.mk [97] true)] "d.txt" = true ∧
    alookup ([] : Manifest) "d.txt" = none ∧
    isDivergent (fun b => b) ([] : Manifest)
      [("d.txt", File.mk [97] true)] "d.txt" = false ∧
    undo_history (fun b => b) (Changes.mk [] ["d.txt"] []) [] []
      [("d.txt", File.mk [97] true)] false
      = ([("d.txt", File.mk [97] true)], UndoResult.ok none) := by
  decide

/-- Claim C3, amended: a path in `modified ∪ deleted` is classified as
divergent — and undo without force aborts, before any mutation, naming
it — precisely when it exists on disk, is readable, has an entry in the
AFTER manifest, and its current hash differs from that entry's hash.  A
path with no AFTER-manifest entry (in particular every `deleted` path)
is never classified as divergent, whatever its on-disk content. -/
theorem undo_divergence_flags_after_tracked_paths (hash : Bytes → Hash)
    (changes : Changes) (after : Manifest) (backup fs : FS)
    (rel : String) (f : File) (e : ManifestEntry)
    (h1 : rel ∈ changes.modified ++ changes.deleted)
    (h2 : alookup fs rel = some f) (h3 : f.readable = true)
    (h4 : alookup after rel = some e) (h5 : hash f.content ≠ e.sha256) :
    isDivergent hash after fs rel = true ∧
    rel ∈ divergentList hash changes after fs ∧
    undo_history hash changes after backup fs false =
      (fs, UndoResult.diverged (divergentList hash changes after fs)) ∧
    (∀ q, alookup after q = none → isDivergent hash after fs q = false) := by
  have hdivg : isDivergent hash after fs rel = true := by
    unfold isDivergent
    rw [h2]
    simp [h3, h4, h5]
  have hmem : rel ∈ divergentList hash changes after fs := by
    have h1x := List.mem_append.mp h1
    simp [divergentList, List.mem_filter, hdivg]
    tauto
  refine ⟨hdivg, hmem, ?_, ?_⟩
  · simp only [undo_history]
    rw [if_pos ⟨List.ne_nil_of_mem hmem, trivial⟩]
  · intro q hq
    unfold isDivergent
    cases hfq : alookup fs q with
    | none => rfl
    | some g =>
      by_cases hr : g.readable
      · simp [hr, hq]
      · simp [hr]

/-- Witness for the amended C3 at a concrete diverged modified file. -/
theorem undo_divergence_flags_after_tracked_paths_witness :
    ("m.txt" ∈ (Changes.mk [] [] ["m.txt"]).modified ++
      (Changes.mk [] [] ["m.txt"]).deleted) ∧
    (alookup [("m.txt", File.mk [2] true)] "m.txt" = some (File.mk [2] true)) ∧
    ((File.mk [2] true).readable = true) ∧
    (alookup [("m.txt", ManifestEntry.mk "m.txt" 1 [1])] "m.txt" =
      some (ManifestEntry.mk "m.txt" 1 [1])) ∧
    ((fun b => b) (File.mk [2] true).content ≠
      (ManifestEntry.mk "m.txt" 1 [1]).sha256) ∧
    (isDivergent (fun b => b) [("m.txt", ManifestEntry.mk "m.txt" 1 [1])]
        [("m.txt", File.mk [2] true)] "m.txt" = true ∧
      "m.txt" ∈ divergentList (fun b => b) (Changes.mk [] [] ["m.txt"])
        [("m.txt", ManifestEntry.mk "m.txt" 1 [1])]
        [("m.txt", File.mk [2] true)] ∧
      undo_history (fun b => b) (Changes.mk [] [] ["m.txt"])
        [("m.txt", ManifestEntry.mk "m.txt" 1 [1])] []
        [("m.txt", File.mk [2] true)] false =
        ([("m.txt", File.mk [2] true)],
          UndoResult.diverged (divergentList (fun b => b)
            (Changes.mk [] [] ["m.txt"])
            [("m.txt", ManifestEntry.mk "m.txt" 1 [1])]
            [("m.txt", File.mk [2] true)])) ∧
      (∀ q, alookup [("m.txt", ManifestEntry.mk "m.txt" 1 [1])] q = none →
        isDivergent (fun b => b) [("m.txt", ManifestEntry.mk "m.txt" 1 [1])]
          [("m.txt", File.mk [2] true)] q = false)) :=
  ⟨by decide, by decide, by decide, by decide, by decide,
    undo_divergence_flags_after_tracked_paths (fun b => b)
      (Changes.mk [] [] ["m.txt"])
      [("m.txt", ManifestEntry.mk "m.txt" 1 [1])] []
      [("m.txt", File.mk [2] true)] "m.txt" (File.mk [2] true)
      (ManifestEntry.mk "m.txt" 1 [1])
      (by decide) (by decide) (by decide) (by decide) (by decide)⟩

/-- Counterexample to C4 as stated: `image.png` is a BEFORE-manifest
entry that is not backed up (its extension is outside the allow-list),
yet it is recorded in neither the backed-up list nor the skipped list —
the loop passes over non-allow-listed extensions silently, while the
claim requires every non-backed-up manifest entry to appear in
`skipped`. -/
theorem backup_nonallowlisted_unrecorded_cex :
    ("image.png", ManifestEntry.mk "image.png" 3 [1, 2, 3]) ∈
      ([("image.png", ManifestEntry.mk "image.png" 3 [1, 2, 3])] : Manifest) ∧
    suffixLower "image.png" ∉ DEFAULT_BACKUP_EXTENSIONS ∧
    backupLoop DEFAULT_BACKUP_EXTENSIONS (5 * 1024 * 1024)
      [("image.png", File.mk [1, 2, 3] true)]
      [("image.png", ManifestEntry.mk "image.png" 3 [1, 2, 3])] [] [] []
      = ([], [], []) := by
  decide

/-- Claim C4, amended: a manifest entry is copied into the backup tree
(at its own relative path, with the file's current bytes) and recorded
in `backed_up` exactly when its lowered suffix is allow-listed, its size
is at most the byte ceiling (the source uses `size > max` for skipping,
so a file of exactly the ceiling size is backed up), and the binary
sniff finds no null byte; an allow-listed entry failing the size or
sniff check is recorded in `skipped`; an entry whose extension is not
allow-listed is recorded in neither list. -/
theorem backup_selection_characterization (exts : List String) (maxB : Nat)
    (fs : FS) (m : Manifest) (hnd : (m.map (fun e => e.1)).Nodup) :
    (backupLoop exts maxB fs m [] [] []).2.1 =
      (m.filter (backedPred exts maxB fs)).map (fun e => e.1) ∧
    (backupLoop exts maxB fs m [] [] []).2.2 =
      (m.filter (skippedPred exts maxB fs)).map (fun e => e.1) ∧
    (∀ rel entry, (rel, entry) ∈ m → backedPred exts maxB fs (rel, entry) = true →
      alookup (backupLoop exts maxB fs m [] [] []).1 rel =
        Option.map (fun b => File.mk b true) (FS.readBytes fs rel)) := by
  refine ⟨?_, ?_, ?_⟩
  · have := backupLoop_backed exts maxB fs m [] [] []
    simpa using this
  · have := backupLoop_skipped exts maxB fs m [] [] []
    simpa using this
  · intro rel entry hmem hp
    exact backupLoop_bk_copied exts maxB fs m [] [] [] hnd rel entry hmem hp

/-- Witness for the amended C4 on a concrete manifest holding one
backable file, one oversized file, one binary file and one
non-allow-listed file. -/
theorem backup_selection_characterization_witness :
    (([("a.py", ManifestEntry.mk "a.py" 1 [97]),
       ("big.py", ManifestEntry.mk "big.py" 11 [9]),
       ("bin.py", ManifestEntry.mk "bin.py" 2 [7]),
       ("image.png", ManifestEntry.mk "image.png" 3 [5])].map
        (fun e => e.1)).Nodup) ∧
    ((backupLoop DEFAULT_BACKUP_EXTENSIONS 10
        [("a.py", File.mk [97] true), ("big.py", File.mk [1, 2] true),
         ("bin.py", File.mk [0, 3] true), ("image.png", File.mk [5] true)]
        [("a.py", ManifestEntry.mk "a.py" 1 [97]),
         ("big.py", ManifestEntry.mk "big.py" 11 [9]),
         ("bin.py", ManifestEntry.mk "bin.py" 2 [7]),
         ("image.png", ManifestEntry.mk "image.png" 3 [5])] [] [] []).2.1 =
      ([("a.py", ManifestEntry.mk "a.py" 1 [97]),
        ("big.py", ManifestEntry.mk "big.py" 11 [9]),
        ("bin.py", ManifestEntry.mk "bin.py" 2 [7]),
        ("image.png", ManifestEntry.mk "image.png" 3 [5])].filter
          (backedPred DEFAULT_BACKUP_EXTENSIONS 10
            [("a.py", File.mk [97] true), ("big.py", File.mk [1, 2] true),
             ("bin.py", File.mk [0, 3] true), ("image.png", File.mk [5] true)])).map
        (fun e => e.1) ∧
      (backupLoop DEFAULT_BACKUP_EXTENSIONS 10
        [("a.py", File.mk [97] true), ("big.py", File.mk [1, 2] true),
         ("bin.py", File.mk [0, 3] true), ("image.png", File.mk [5] true)]
        [("a.py", ManifestEntry.mk "a.py" 1 [97]),
         ("big.py", ManifestEntry.mk "big.py" 11 [9]),
         ("bin.py", ManifestEntry.mk "bin.py" 2 [7]),
         ("image.png", ManifestEntry.mk "image.png" 3 [5])] [] [] []).2.2 =
      ([("a.py", ManifestEntry.mk "a.py" 1 [97]),
        ("big.py", ManifestEntry.mk "big.py" 11 [9]),
        ("bin.py", ManifestEntry.mk "bin.py" 2 [7]),
        ("image.png", ManifestEntry.mk "image.png" 3 [5])].filter
          (skippedPred DEFAULT_BACKUP_EXTENSIONS 10
            [("a.py", File.mk [97] true), ("big.py", File.mk [1, 2] true),
             ("bin.py", File.mk [0, 3] true), ("image.png", File.mk [5] true)])).map
        (fun e => e.1) ∧
      (∀ rel entry,
        (rel, entry) ∈ ([("a.py", ManifestEntry.mk "a.py" 1 [97]),
          ("big.py", ManifestEntry.mk "big.py" 11 [9]),
          ("bin.py", ManifestEntry.mk "bin.py" 2 [7]),
          ("image.png", ManifestEntry.mk "image.png" 3 [5])] : Manifest) →
        backedPred DEFAULT_BACKUP_EXTENSIONS 10
          [("a.py", File.mk [97] true), ("big.py", File.mk [1, 2] true),
           ("bin.py", File.mk [0, 3] true), ("image.png", File.mk [5] true)]
          (rel, entry) = true →
        alookup (backupLoop DEFAULT_BACKUP_EXTENSIONS 10
          [("a.py", File.mk [97] true), ("big.py", File.mk [1, 2] true),
           ("bin.py", File.mk [0, 3] true), ("image.png", File.mk [5] true)]
          [("a.py", ManifestEntry.mk "a.py" 1 [97]),
           ("big.py", ManifestEntry.mk "big.py" 11 [9]),
           ("bin.py", ManifestEntry.mk "bin.py" 2 [7]),
           ("image.png", ManifestEntry.mk "image.png" 3 [5])] [] [] []).1 rel =
          Option.map (fun b => File.mk b true)
            (FS.readBytes [("a.py", File.mk [97] true),
              ("big.py", File.mk [1, 2] true), ("bin.py", File.mk [0, 3] true),
              ("image.png", File.mk [5] true)] rel))) :=
  ⟨by decide,
    backup_selection_characterization DEFAULT_BACKUP_EXTENSIONS 10
      [("a.py", File.mk [97] true), ("big.py", File.mk [1, 2] true),
       ("bin.py", File.mk [0, 3] true), ("image.png", File.mk [5] true)]
      [("a.py", ManifestEntry.mk "a.py" 1 [97]),
       ("big.py", ManifestEntry.mk "big.py" 11 [9]),
       ("bin.py", ManifestEntry.mk "bin.py" 2 [7]),
       ("image.png", ManifestEntry.mk "image.png" 3 [5])] (by decide)⟩

/-- Claim C5: a successful undo (forced, or with an empty divergence
list) over the ChangeSet computed by finalization returns normally,
removes every `added` path from the tree, and leaves every path outside
`added ∪ modified ∪ deleted` byte-identical — restoration writes only to
`modified`/`deleted` paths. -/
theorem undo_frame_property (hash : Bytes → Hash) (before after : Manifest)
    (backup fs : FS) (force : Bool)
    (hsucc : force = true ∨
      divergentList hash (finalize_history_entry before after) after fs = []) :
    (undo_history hash (finalize_history_entry before after) after backup fs
      force).2 = UndoResult.ok none ∧
    (∀ rel, rel ∈ (finalize_history_entry before after).added →
      alookup (undo_history hash (finalize_history_entry before after) after
        backup fs force).1 rel = none) ∧
    (∀ q, q ∉ (finalize_history_entry before after).added →
      q ∉ (finalize_history_entry before after).modified →
      q ∉ (finalize_history_entry before after).deleted →
      alookup (undo_history hash (finalize_history_entry before after) after
        backup fs force).1 q = alookup fs q) := by
  have hcond : ¬ (divergentList hash (finalize_history_entry before after)
      after fs ≠ [] ∧ force = false) := by
    rcases hsucc with h | h
    · rw [h]; simp
    · rw [h]; simp
  have hr : undo_history hash (finalize_history_entry before after) after
      backup fs force =
      (restoreFiles backup
        (removeAdded fs (finalize_history_entry before after).added)
        ((finalize_history_entry before after).modified ++
          (finalize_history_entry before after).deleted),
        UndoResult.ok none) := by
    simp only [undo_history]
    rw [if_neg hcond]
  refine ⟨by rw [hr], ?_, ?_⟩
  · intro rel hmem
    have hadd := (finalize_mem_added before after rel).mp hmem
    have hnm : rel ∉ (finalize_history_entry before after).modified := by
      intro hc
      exact hadd.2 ((finalize_mem_modified before after rel).mp hc).1
    have hnd : rel ∉ (finalize_history_entry before after).deleted := by
      intro hc
      exact hadd.2 ((finalize_mem_deleted before after rel).mp hc).1
    rw [hr]
    simp only
    rw [restoreFiles_frame _ _ _ _ (by
      intro hc
      rcases List.mem_append.mp hc with hc | hc
      · exact hnm hc
      · exact hnd hc)]
    rw [removeAdded_lookup, if_pos hmem]
  · intro q h1 h2 h3
    rw [hr]
    simp only
    rw [restoreFiles_frame _ _ _ _ (by
      intro hc
      rcases List.mem_append.mp hc with hc | hc
      · exact h2 hc
      · exact h3 hc)]
    rw [removeAdded_lookup, if_neg h1]

/-- Witness for C5 on the round-trip repository of the spec's test
properties: `train.py` modified, `new.py` added, `utils.py` untouched. -/
theorem undo_frame_property_witness :
    (false = true ∨
      divergentList (fun b => b)
        (finalize_history_entry
          [("train.py", ManifestEntry.mk "train.py" 4 [97, 61, 49, 10]),
           ("utils.py", ManifestEntry.mk "utils.py" 1 [9])]
          [("train.py", ManifestEntry.mk "train.py" 4 [97, 61, 50, 10]),
           ("new.py", ManifestEntry.mk "new.py" 1 [1]),
           ("utils.py", ManifestEntry.mk "utils.py" 1 [9])])
        [("train.py", ManifestEntry.mk "train.py" 4 [97, 61, 50, 10]),
         ("new.py", ManifestEntry.mk "new.py" 1 [1]),
         ("utils.py", ManifestEntry.mk "utils.py" 1 [9])]
        [("train.py", File.mk [97, 61, 50, 10] true),
         ("new.py", File.mk [1] true), ("utils.py", File.mk [9] true)] = []) ∧
    ((undo_history (fun b => b)
        (finalize_history_entry
          [("train.py", ManifestEntry.mk "train.py" 4 [97, 61, 49, 10]),
           ("utils.py", ManifestEntry.mk "utils.py" 1 [9])]
          [("train.py", ManifestEntry.mk "train.py" 4 [97, 61, 50, 10]),
           ("new.py", ManifestEntry.mk "new.py" 1 [1]),
           ("utils.py", ManifestEntry.mk "utils.py" 1 [9])])
        [("train.py", ManifestEntry.mk "train.py" 4 [97, 61, 50, 10]),
         ("new.py", ManifestEntry.mk "new.py" 1 [1]),
         ("utils.py", ManifestEntry.mk "utils.py" 1 [9])]
        [("train.py", File.mk [97, 61, 49, 10] true)]
        [("train.py", File.mk [97, 61, 50, 10] true),
         ("new.py", File.mk [1] true), ("utils.py", File.mk [9] true)]
        false).2 = UndoResult.ok none ∧
      (∀ rel, rel ∈ (finalize_history_entry
          [("train.py", ManifestEntry.mk "train.py" 4 [97, 61, 49, 10]),
           ("utils.py", ManifestEntry.mk "utils.py" 1 [9])]
          [("train.py", ManifestEntry.mk "train.py" 4 [97, 61, 50, 10]),
           ("new.py", ManifestEntry.mk "new.py" 1 [1]),
           ("utils.py", ManifestEntry.mk "utils.py" 1 [9])]).added →
        alookup (undo_history (fun b => b)
          (finalize_history_entry
            [("train.py", ManifestEntry.mk "train.py" 4 [97, 61, 49, 10]),
             ("utils.py", ManifestEntry.mk "utils.py" 1 [9])]
            [("train.py", ManifestEntry.mk "train.py" 4 [97, 61, 50, 10]),
             ("new.py", ManifestEntry.mk "new.py" 1 [1]),
             ("utils.py", ManifestEntry.mk "utils.py" 1 [9])])
          [("train.py", ManifestEntry.mk "train.py" 4 [97, 61, 50, 10]),
           ("new.py", ManifestEntry.mk "new.py" 1 [1]),
           ("utils.py", ManifestEntry.mk "utils.py" 1 [9])]
          [("train.py", File.mk [97, 61, 49, 10] true)]
          [("train.py", File.mk [97, 61, 50, 10] true),
           ("new.py", File.mk [1] true), ("utils.py", File.mk [9] true)]
          false).1 rel = none) ∧
      (∀ q, q ∉ (finalize_history_entry
          [("train.py", ManifestEntry.mk "train.py" 4 [97, 61, 49, 10]),
           ("utils.py", ManifestEntry.mk "utils.py" 1 [9])]
          [("train.py", ManifestEntry.mk "train.py" 4 [97, 61, 50, 10]),
           ("new.py", ManifestEntry.mk "new.py" 1 [1]),
           ("utils.py", ManifestEntry.mk "utils.py" 1 [9])]).added →
        q ∉ (finalize_history_entry
          [("train.py", ManifestEntry.mk "train.py" 4 [97, 61, 49, 10]),
           ("utils.py", ManifestEntry.mk "utils.py" 1 [9])]
          [("train.py", ManifestEntry.mk "train.py" 4 [97, 61, 50, 10]),
           ("new.py", ManifestEntry.mk "new.py" 1 [1]),
           ("utils.py", ManifestEntry.mk "utils.py" 1 [9])]).modified →
        q ∉ (finalize_history_entry
          [("train.py", ManifestEntry.mk "train.py" 4 [97, 61, 49, 10]),
           ("utils.py", ManifestEntry.mk "utils.py" 1 [9])]
          [("train.py", ManifestEntry.mk "train.py" 4 [97, 61, 50, 10]),
           ("new.py", ManifestEntry.mk "new.py" 1 [1]),
           ("utils.py", ManifestEntry.mk "utils.py" 1 [9])]).deleted →
        alookup (undo_history (fun b => b)
          (finalize_history_entry
            [("train.py", ManifestEntry.mk "train.py" 4 [97, 61, 49, 10]),
             ("utils.py", ManifestEntry.mk "utils.py" 1 [9])]
            [("train.py", ManifestEntry.mk "train.py" 4 [97, 61, 50, 10]),
             ("new.py", ManifestEntry.mk "new.py" 1 [1]),
             ("utils.py", ManifestEntry.mk "utils.py" 1 [9])])
          [("train.py", ManifestEntry.mk "train.py" 4 [97, 61, 50, 10]),
           ("new.py", ManifestEntry.mk "new.py" 1 [1]),
           ("utils.py", ManifestEntry.mk "utils.py" 1 [9])]
          [("train.py", File.mk [97, 61, 49, 10] true)]
          [("train.py", File.mk [97, 61, 50, 10] true),
           ("new.py", File.mk [1] true), ("utils.py", File.mk [9] true)]
          false).1 q =
          alookup [("train.py", File.mk [97, 61, 50, 10] true),
            ("new.py", File.mk [1] true), ("utils.py", File.mk [9] true)] q)) :=
  ⟨Or.inr (by decide),
    undo_frame_property (fun b => b)
      [("train.py", ManifestEntry.mk "train.py" 4 [97, 61, 49, 10]),
       ("utils.py", ManifestEntry.mk "utils.py" 1 [9])]
      [("train.py", ManifestEntry.mk "train.py" 4 [97, 61, 50, 10]),
       ("new.py", ManifestEntry.mk "new.py" 1 [1]),
       ("utils.py", ManifestEntry.mk "utils.py" 1 [9])]
      [("train.py", File.mk [97, 61, 49, 10] true)]
      [("train.py", File.mk [97, 61, 50, 10] true),
       ("new.py", File.mk [1] true), ("utils.py", File.mk [9] true)]
      false (Or.inr (by decide))⟩

/-- Claim C6: finalization computes the ChangeSet exactly as the
set-algebra of the two manifests: `added` holds the keys in AFTER and
not BEFORE, `deleted` the keys in BEFORE and not AFTER, and `modified`
the common keys whose recorded hashes differ. -/
theorem finalize_changes_set_spec (before after : Manifest) :
    (∀ k, k ∈ (finalize_history_entry before after).added ↔
      k ∈ manifestKeys after ∧ k ∉ manifestKeys before) ∧
    (∀ k, k ∈ (finalize_history_entry before after).deleted ↔
      k ∈ manifestKeys before ∧ k ∉ manifestKeys after) ∧
    (∀ k, k ∈ (finalize_history_entry before after).modified ↔
      k ∈ manifestKeys before ∧ k ∈ manifestKeys after ∧
        hashAt before k ≠ hashAt after k) :=
  ⟨fun k => finalize_mem_added before after k,
   fun k => finalize_mem_deleted before after k,
   fun k => finalize_mem_modified before after k⟩

/-- Claim C7: manifest building is a pure function of the tree's bytes,
invariant under traversal order — trees holding the same files in any
two enumeration orders yield manifests equal as sets of (path, hash)
pairs. -/
theorem build_manifest_traversal_invariance (hash : Bytes → Hash)
    (fs1 fs2 : FS) (hperm : fs1.Perm fs2) :
    ∀ pr : String × Hash,
      pr ∈ manifestPairs (build_manifest hash fs1) ↔
      pr ∈ manifestPairs (build_manifest hash fs2) := by
  have h1 : (build_manifest hash fs1).Perm (build_manifest hash fs2) :=
    (hperm.filter _).filterMap _
  exact fun pr => (h1.map _).mem_iff

/-- Witness for C7 on a two-file tree enumerated in both orders. -/
theorem build_manifest_traversal_invariance_witness :
    ([("a.py", File.mk [1] true), ("b.py", File.mk [2] true)] : FS).Perm
      [("b.py", File.mk [2] true), ("a.py", File.mk [1] true)] ∧
    (∀ pr : String × Hash,
      pr ∈ manifestPairs (build_manifest (fun b => b)
        [("a.py", File.mk [1] true), ("b.py", File.mk [2] true)]) ↔
      pr ∈ manifestPairs (build_manifest (fun b => b)
        [("b.py", File.mk [2] true), ("a.py", File.mk [1] true)])) :=
  ⟨by decide,
    build_manifest_traversal_invariance (fun b => b)
      [("a.py", File.mk [1] true), ("b.py", File.mk [2] true)]
      [("b.py", File.mk [2] true), ("a.py", File.mk [1] true)] (by decide)⟩

/-- Counterexample to C8 as stated: with the configured maximum set to 0
(`LYRA_MAX_STEPS=0` parses to the integer 0), a single-step training
loop still completes one optimizer-step invocation — the wrapper runs
`original_step` before incrementing and checking the counter — so the
process completes more step invocations than the configured maximum. -/
theorem guard_zero_max_completes_step_cex :
    (runTraining 0 1 (GuardState.mk 0 false)).2.2 = true ∧
    (runTraining 0 1 (GuardState.mk 0 false)).1.steps = 1 ∧
    ¬ (((runTraining 0 1 (GuardState.mk 0 false)).1.steps : Int) ≤ 0) := by
  decide

/-- Claim C8, amended: when the configured maximum is at least 1, a
guarded training loop never completes more optimizer-step invocations
than the maximum; at most one diagnostic line is ever emitted; if the
guard trips it does so exactly at the invocation where the count reaches
the maximum, emitting exactly one diagnostic line and ending the process
cleanly (no further invocation runs — the trip is terminal); if the loop
ends without tripping, no diagnostic was printed and the count is below
the maximum; and any loop attempting at least the maximum number of
invocations does trip. -/
theorem guard_step_cap (maxSteps : Int) (hmax : 1 ≤ maxSteps) (n : Nat) :
    (((runTraining maxSteps n (GuardState.mk 0 false)).1.steps : Int) ≤ maxSteps) ∧
    ((runTraining maxSteps n (GuardState.mk 0 false)).2.1 ≤ 1) ∧
    ((runTraining maxSteps n (GuardState.mk 0 false)).2.2 = true →
      (runTraining maxSteps n (GuardState.mk 0 false)).2.1 = 1 ∧
      (((runTraining maxSteps n (GuardState.mk 0 false)).1.steps : Int) = maxSteps)) ∧
    ((runTraining maxSteps n (GuardState.mk 0 false)).2.2 = false →
      (runTraining maxSteps n (GuardState.mk 0 false)).2.1 = 0 ∧
      (((runTraining maxSteps n (GuardState.mk 0 false)).1.steps : Int) < maxSteps)) ∧
    (maxSteps ≤ (n : Int) →
      (runTraining maxSteps n (GuardState.mk 0 false)).2.2 = true) := by
  have h0 : ((0 : Nat) : Int) < maxSteps := by
    push_cast
    omega
  obtain ⟨ha, hb, hc⟩ := runTraining_inv maxSteps n 0 h0
  refine ⟨ha, ?_, hb, fun hf => ⟨(hc hf).1, (hc hf).2.1⟩, ?_⟩
  · cases hex : (runTraining maxSteps n (GuardState.mk 0 false)).2.2 with
    | true => rw [(hb hex).1]
    | false => rw [(hc hex).1]; omega
  · intro hn
    cases hex : (runTraining maxSteps n (GuardState.mk 0 false)).2.2 with
    | true => rfl
    | false =>
      obtain ⟨_, hlt, hsum⟩ := hc hex
      rw [hsum] at hlt
      push_cast at hlt
      omega

/-- Witness for the amended C8 with max-steps 5 and a 10-step loop. -/
theorem guard_step_cap_witness :
    (1 : Int) ≤ 5 ∧
    ((((runTraining 5 10 (GuardState.mk 0 false)).1.steps : Int) ≤ 5) ∧
     ((runTraining 5 10 (GuardState.mk 0 false)).2.1 ≤ 1) ∧
     ((runTraining 5 10 (GuardState.mk 0 false)).2.2 = true →
       (runTraining 5 10 (GuardState.mk 0 false)).2.1 = 1 ∧
       (((runTraining 5 10 (GuardState.mk 0 false)).1.steps : Int) = 5)) ∧
     ((runTraining 5 10 (GuardState.mk 0 false)).2.2 = false →
       (runTraining 5 10 (GuardState.mk 0 false)).2.1 = 0 ∧
       (((runTraining 5 10 (GuardState.mk 0 false)).1.steps : Int) < 5)) ∧
     ((5 : Int) ≤ (10 : Nat) →
       (runTraining 5 10 (GuardState.mk 0 false)).2.2 = true)) :=
  ⟨by decide, guard_step_cap 5 (by decide) 10⟩

/-- Counterexample to C9 as stated: run identifiers are second-resolution
timestamps, so two distinct history-entry creations that fall within the
same clock second (here modelled as invocations number 0 and 1 at the
same instant) are assigned the same run identifier — uniqueness fails. -/
theorem run_id_same_second_collision_cex :
    ¬ (∀ a b : Nat × Time, a ≠ b → run_id a.2 ≠ run_id b.2) := by
  intro h
  exact h (0, Time.mk 2024 5 1 12 0 0) (1, Time.mk 2024 5 1 12 0 0)
    (by decide) rfl

/-- Claim C9, amended: for creations whose second-resolution timestamps
differ, the run identifiers are distinct and their lexicographic order
agrees with the chronological order of the creation times; creations
within the same second collide (see the counterexample). -/
theorem run_id_distinct_ordered (t u : Time) (ht : t.Valid) (hu : u.Valid)
    (h : t.Before u) :
    run_id t ≠ run_id u ∧ List.Lex (· < ·) (run_id t) (run_id u) := by
  have hlex := run_id_lt t u ht hu h
  exact ⟨fun heq => lex_irrefl_nat _ (heq ▸ hlex), hlex⟩

/-- Witness for the amended C9 at two instants one second apart. -/
theorem run_id_distinct_ordered_witness :
    (Time.mk 2024 5 1 12 0 0).Valid ∧ (Time.mk 2024 5 1 12 0 1).Valid ∧
    (Time.mk 2024 5 1 12 0 0).Before (Time.mk 2024 5 1 12 0 1) ∧
    (run_id (Time.mk 2024 5 1 12 0 0) ≠ run_id (Time.mk 2024 5 1 12 0 1) ∧
      List.Lex (· < ·) (run_id (Time.mk 2024 5 1 12 0 0))
        (run_id (Time.mk 2024 5 1 12 0 1))) :=
  ⟨by decide, by decide, by decide,
    run_id_distinct_ordered (Time.mk 2024 5 1 12 0 0)
      (Time.mk 2024 5 1 12 0 1) (by decide) (by decide) (by decide)⟩

/-- Claim C10: an allow-listed, size-eligible backup candidate whose
bytes cannot be read is classified as binary by the sniff
(`_looks_binary` returns true on a failed read), ends up in the skipped
list and never in the backed-up list; every read failure is caught
inside the loop, so entry creation runs to completion — the loop is a
total function of its inputs — rather than raising. -/
theorem backup_unreadable_candidate_skipped (exts : List String)
    (maxB : Nat) (fs : FS) (m : Manifest) (rel : String)
    (entry : ManifestEntry) (hmem : (rel, entry) ∈ m)
    (hext : suffixLower rel ∈ exts) (hsize : entry.size ≤ maxB)
    (hread : FS.readBytes fs rel = none) :
    _looks_binary fs rel = true ∧
    rel ∈ (backupLoop exts maxB fs m [] [] []).2.2 ∧
    rel ∉ (backupLoop exts maxB fs m [] [] []).2.1 := by
  have hbin : _looks_binary fs rel = true := by
    unfold _looks_binary
    rw [hread]
  refine ⟨hbin, ?_, ?_⟩
  · rw [backupLoop_skipped]
    simp only [List.nil_append]
    exact List.mem_map.mpr ⟨(rel, entry),
      List.mem_filter.mpr ⟨hmem, by simp [skippedPred, hext, hbin]⟩, rfl⟩
  · rw [backupLoop_backed]
    simp only [List.nil_append]
    intro hcon
    rcases List.mem_map.mp hcon with ⟨e, hef, heq⟩
    rcases List.mem_filter.mp hef with ⟨hem, hep⟩
    obtain ⟨k, ke⟩ := e
    simp only at heq
    subst heq
    simp [backedPred, hbin] at hep

/-- Witness for C10: one unreadable `.py` candidate. -/
theorem backup_unreadable_candidate_skipped_witness :
    (("a.py", ManifestEntry.mk "a.py" 1 [97]) ∈
      ([("a.py", ManifestEntry.mk "a.py" 1 [97])] : Manifest)) ∧
    suffixLower "a.py" ∈ [".py"] ∧
    (ManifestEntry.mk "a.py" 1 [97]).size ≤ 10 ∧
    FS.readBytes [("a.py", File.mk [97] false)] "a.py" = none ∧
    (_looks_binary [("a.py", File.mk [97] false)] "a.py" = true ∧
      "a.py" ∈ (backupLoop [".py"] 10 [("a.py", File.mk [97] false)]
        [("a.py", ManifestEntry.mk "a.py" 1 [97])] [] [] []).2.2 ∧
      "a.py" ∉ (backupLoop [".py"] 10 [("a.py", File.mk [97] false)]
        [("a.py", ManifestEntry.mk "a.py" 1 [97])] [] [] []).2.1) :=
  ⟨by decide, by decide, by decide, by decide,
    backup_unreadable_candidate_skipped [".py"] 10
      [("a.py", File.mk [97] false)]
      [("a.py", ManifestEntry.mk "a.py" 1 [97])] "a.py"
      (ManifestEntry.mk "a.py" 1 [97])
      (by decide) (by decide) (by decide) (by decide)⟩

end Lyra
